import Mathlib

/-!
Verification of the reconciliation-engine package (`package controller`,
src/unnamed/part_000) of kubernetes-local-volume against its specification.

The Go code is shallowly embedded: `time.Duration` values are `Int`
nanoseconds, `float64` arithmetic is carried out exactly in `ℚ`,
pseudo-random draws of `rand.Float64()` are an explicit stream `ℕ → ℚ`,
and the side effects of the enqueue family are modelled by the list of
calls they hand to the work queue.
-/

namespace KLV

/-- `types.NamespacedName` (k8s.io/apimachinery/pkg/types): a namespace/name
pair.  `namespace` is a Lean keyword, so the field is called `ns`. -/
structure NamespacedName where
  ns : String
  name : String
deriving DecidableEq, Repr

/-- `NamespacedName.String()` from k8s.io/apimachinery/pkg/types:
`n.Namespace + "/" + n.Name`. -/
def NamespacedName.string (k : NamespacedName) : String :=
  k.ns ++ "/" ++ k.name

/-- `safeKey` (part_000 lines 513-518): the bare name when the namespace is
empty, otherwise `key.String()`. -/
def safeKey (key : NamespacedName) : String :=
  if key.ns = "" then key.name else key.string

/-- The Go `error` values this package distinguishes: `permanentError`
(part_000 lines 386-390), a struct wrapping a possibly-nil inner error, and
any other error, identified by its message.  `IsPermanentError` inspects
only the dynamic type, which this embedding renders as the constructor. -/
inductive GoError where
  | plain (msg : String)
  | permanent (e : Option GoError)

/-- `NewPermanentError` (part_000 lines 379-384): wraps `err` as
`permanentError{e: err}`. -/
def NewPermanentError (err : Option GoError) : GoError :=
  .permanent err

/-- `IsPermanentError` (part_000 lines 392-400): `switch err.(type)`,
true exactly for the `permanentError` case. -/
def IsPermanentError : GoError → Bool
  | .permanent _ => true
  | .plain _ => false

/-- `permanentError.Error()` (part_000 lines 402-409) together with the
message of a plain error. -/
def GoError.message : GoError → String
  | .plain msg => msg
  | .permanent none => ""
  | .permanent (some e) => e.message

/-- The calls `processNextWorkItem`/`handleErr` make on the rate-limited
work queue for the key being processed. -/
inductive QueueOp where
  | addRateLimited (k : NamespacedName)
  | forget (k : NamespacedName)
  | done (k : NamespacedName)
deriving DecidableEq, Repr

/-- `handleErr` (part_000 lines 342-356): requeue with `AddRateLimited` when
the error is not permanent and the queue is not shutting down; otherwise
`Forget` the key. -/
def handleErr (err : GoError) (shuttingDown : Bool) (key : NamespacedName) :
    List QueueOp :=
  if !IsPermanentError err && !shuttingDown then
    [.addRateLimited key]
  else
    [.forget key]

/-- Outcome of one `processNextWorkItem` call: whether the worker loop
continues, the key string handed to `Reconcile` (if any), and the queue
calls made. -/
structure ProcessOutcome where
  keepRunning : Bool
  reconciledKey : Option String
  ops : List QueueOp
deriving DecidableEq, Repr

/-- `processNextWorkItem` (part_000 lines 300-340).  Inputs: the result of
`WorkQueue.Get()` (`none` when the queue reports shutdown), the Reconciler
(returning `none` on success), and the `ShuttingDown()` flag observed inside
`handleErr`.  The deferred `Done(key)` runs last, hence is appended. -/
def processNextWorkItem (got : Option NamespacedName)
    (reconcile : String → Option GoError) (shuttingDown : Bool) :
    ProcessOutcome :=
  match got with
  | none => ⟨false, none, []⟩
  | some key =>
    let keyStr := safeKey key
    match reconcile keyStr with
    | some err => ⟨true, some keyStr, handleErr err shuttingDown key ++ [.done key]⟩
    | none => ⟨true, some keyStr, [.forget key, .done key]⟩

/-- The two context keys this package attaches values under:
`resyncPeriodKey` (part_000 line 471) and `erKey` (line 495). -/
inductive CtxKey where
  | resyncPeriodKey
  | erKey
deriving DecidableEq, Repr

/-- The values stored under those keys: a `time.Duration` (Int nanoseconds)
by `WithResyncPeriod`, or a `record.EventRecorder` (opaque, identified by a
number) by `WithEventRecorder`. -/
inductive CtxVal where
  | duration (d : Int)
  | recorder (r : Nat)
deriving DecidableEq, Repr

/-- A Go `context.Context` as this package builds them: `context.TODO()` /
`context.Background()`, extended by `context.WithValue`. -/
inductive Context where
  | todo
  | withValue (parent : Context) (k : CtxKey) (v : CtxVal)
deriving DecidableEq, Repr

/-- `ctx.Value(k)`: the value of the innermost enclosing `WithValue` for
`k`, or `nil`. -/
def Context.value : Context → CtxKey → Option CtxVal
  | .todo, _ => none
  | .withValue p k' v, k => if k' = k then some v else p.value k

/-- One hour in nanoseconds (`time.Hour`). -/
def nanosPerHour : Int := 3600 * 1000000000

/-- `DefaultResyncPeriod = 10 * time.Hour` (part_000 lines 25-29). -/
def DefaultResyncPeriod : Int := 10 * nanosPerHour

/-- `WithResyncPeriod` (part_000 lines 475-477). -/
def WithResyncPeriod (ctx : Context) (resync : Int) : Context :=
  ctx.withValue .resyncPeriodKey (.duration resync)

/-- `GetResyncPeriod` (part_000 lines 481-487): the default when
`ctx.Value(resyncPeriodKey{})` is nil, else the stored duration.  (In Go the
non-nil value is type-asserted to `time.Duration`; only `WithResyncPeriod`
stores under this key, so the assertion corresponds to the `duration`
match arm.) -/
def GetResyncPeriod (ctx : Context) : Int :=
  match ctx.value .resyncPeriodKey with
  | some (.duration d) => d
  | _ => DefaultResyncPeriod

/-- `GetTrackerLease` (part_000 lines 490-492). -/
def GetTrackerLease (ctx : Context) : Int :=
  3 * GetResyncPeriod ctx

/-- `WithEventRecorder` (part_000 lines 499-501). -/
def WithEventRecorder (ctx : Context) (er : Nat) : Context :=
  ctx.withValue .erKey (.recorder er)

/-- The controlling `metav1.OwnerReference` of an object, as returned by
`metav1.GetControllerOf` (only its `Name` is consumed here). -/
structure OwnerRef where
  name : String
deriving DecidableEq, Repr

/-- A k8s object as seen through `metav1.Object`: namespace, name, labels,
and its controlling owner reference, if any. -/
structure KObject where
  ns : String
  name : String
  labels : List (String × String)
  controllerOwner : Option OwnerRef
deriving DecidableEq, Repr

/-- `object.GetLabels()[key]` with its presence bit. -/
def KObject.label (o : KObject) (key : String) : Option String :=
  (o.labels.find? (fun p => p.1 == key)).map Prod.snd

/-- An argument handed to the enqueue family: a live object, a
`cache.DeletedFinalStateUnknown` tombstone (whose last-known state may or
may not itself be an accessible object), or something that is not a k8s
object at all. -/
inductive ObjRef where
  | live (o : KObject)
  | tombstone (o : Option KObject)
  | invalid
deriving DecidableEq, Repr

/-- Modelled from the spec: `DeletionHandlingAccessor` lives elsewhere in
this repository (outside src/).  Per spec §4.3 it resolves an argument "to a
ResourceKey via an accessor tolerant of delete-tombstone wrappers … extract
namespace/name even through the wrapper", and fails (the caller logs and
returns) on anything that is not an object. -/
def DeletionHandlingAccessor : ObjRef → Option KObject
  | .live o => some o
  | .tombstone (some o) => some o
  | .tombstone none => none
  | .invalid => none

/-- `Enqueue` (part_000 lines 154-163), modelled by the list of keys it
passes to `EnqueueKey` (empty = no-op, queue untouched). -/
def Enqueue (obj : ObjRef) : List NamespacedName :=
  match DeletionHandlingAccessor obj with
  | none => []
  | some o => [⟨o.ns, o.name⟩]

/-- `EnqueueControllerOf` (part_000 lines 175-187), modelled by the list of
keys it passes to `EnqueueKey`. -/
def EnqueueControllerOf (obj : ObjRef) : List NamespacedName :=
  match DeletionHandlingAccessor obj with
  | none => []
  | some o =>
    match o.controllerOwner with
    | some owner => [⟨o.ns, owner.name⟩]
    | none => []

/-- `EnqueueLabelOfNamespaceScopedResource` (part_000 lines 193-226),
modelled by the list of keys the returned handler passes to `EnqueueKey`. -/
def EnqueueLabelOfNamespaceScopedResource (namespaceLabel nameLabel : String)
    (obj : ObjRef) : List NamespacedName :=
  match DeletionHandlingAccessor obj with
  | none => []
  | some o =>
    match o.label nameLabel with
    | none => []
    | some controllerKey =>
      if namespaceLabel ≠ "" then
        match o.label namespaceLabel with
        | none => []
        | some controllerNamespace => [⟨controllerNamespace, controllerKey⟩]
      else
        [⟨o.ns, controllerKey⟩]

/-- One second in nanoseconds (`time.Second`). -/
def nanosPerSecond : Int := 1000000000

/-- `wait.Jitter` from k8s.io/apimachinery/pkg/util/wait (a dependency,
not under src/), whose Go body is:
  if maxFactor <= 0.0 { maxFactor = 1.0 }
  wait := duration + time.Duration(rand.Float64()*maxFactor*float64(duration))
  return wait
The random sample `r = rand.Float64() ∈ [0,1)` is an explicit parameter;
float arithmetic is exact in `ℚ` and the `time.Duration(...)` conversion
truncates (floor, all values here being non-negative). -/
def Jitter (duration : Int) (maxFactor : ℚ) (r : ℚ) : Int :=
  let mf : ℚ := if maxFactor ≤ 0 then 1 else maxFactor
  duration + ⌊r * mf * (duration : ℚ)⌋

/-- The loop of `FilteredGlobalResync` (part_000 lines 372-376): one
`EnqueueAfter(obj, wait.Jitter(time.Second, count))` call per item passing
`f`; `i` indexes successive `rand.Float64()` draws from the stream. -/
def resyncCalls (f : ObjRef → Bool) (count : ℚ) (rand : ℕ → ℚ) :
    ℕ → List ObjRef → List (ObjRef × Int)
  | _, [] => []
  | i, obj :: rest =>
    if f obj then
      (obj, Jitter nanosPerSecond count (rand i)) :: resyncCalls f count rand (i + 1) rest
    else
      resyncCalls f count rand i rest

/-- `FilteredGlobalResync` (part_000 lines 366-377), modelled by the list of
`EnqueueAfter` calls it makes, as (argument, delay) pairs. -/
def FilteredGlobalResync (f : ObjRef → Bool) (store : List ObjRef)
    (shuttingDown : Bool) (rand : ℕ → ℚ) : List (ObjRef × Int) :=
  if shuttingDown then []
  else resyncCalls f (store.length : ℚ) rand 0 store

/-- `GlobalResync` (part_000 lines 359-362): `FilteredGlobalResync` with the
always-true filter. -/
def GlobalResync (store : List ObjRef) (shuttingDown : Bool) (rand : ℕ → ℚ) :
    List (ObjRef × Int) :=
  FilteredGlobalResync (fun _ => true) store shuttingDown rand

/-- An informer as the sync barrier observes it: whether its `HasSynced()`
becomes true before the stop signal fires.
`cache.WaitForCacheSync(stopCh, HasSynced)` (client-go, a dependency not
under src/) returns exactly this flag. -/
structure Informer where
  syncsBeforeStop : Bool
deriving DecidableEq, Repr

/-- The wait loop of `StartInformers` (part_000 lines 426-430) over the
informers paired with their indices: the `fmt.Errorf` message for the first
index whose cache failed to sync, `ok` when all synced. -/
def waitLoop : ℕ → List Informer → Except String Unit
  | _, [] => .ok ()
  | i, informer :: rest =>
    if informer.syncsBeforeStop then waitLoop (i + 1) rest
    else .error ("failed to wait for cache at index " ++ toString i ++ " to sync")

/-- `StartInformers` (part_000 lines 420-432): kick off every informer, then
wait for each in order. -/
def StartInformers (informers : List Informer) : Except String Unit :=
  waitLoop 0 informers

/-- Modelled from the spec: the rate-limited work queue implementation
(`k8s.io/client-go/util/workqueue`, a dependency) is not under src/.  Spec
§3/§4.1 describe its state as three logical sets over keys: *queue* (ordered
sequence of keys ready to be pulled), *dirty* (keys requested but not yet
pulled) and *processing* (keys currently checked out by a worker), plus the
shutting-down flag. -/
structure WQState where
  queue : List NamespacedName
  dirty : List NamespacedName
  processing : List NamespacedName
  shuttingDown : Bool
deriving DecidableEq, Repr

/-- The empty queue a fresh `Impl` starts from (part_000 lines 132-141). -/
def WQState.initial : WQState :=
  ⟨[], [], [], false⟩

/-- The atomic events of the queue's single mutual-exclusion domain, in an
arbitrary interleaving across producers and workers: `add k` (an `Add`,
also an `AddAfter`/`AddRateLimited` timer firing), `get` (a worker's `Get()`
returning a key), `done k` (the worker that checked `k` out calls
`Done(k)`), and `shutDown`. -/
inductive WQEvent where
  | add (k : NamespacedName)
  | get
  | done (k : NamespacedName)
  | shutDown
deriving DecidableEq, Repr

/-- Modelled from the spec (§4.1 `Add`): no-op when shutting down or when
`k` is already dirty; else mark dirty and, unless `k` is being processed,
append it to the queue. -/
def wqAdd (s : WQState) (k : NamespacedName) : WQState :=
  if s.shuttingDown then s
  else if k ∈ s.dirty then s
  else if k ∈ s.processing then { s with dirty := s.dirty ++ [k] }
  else { s with dirty := s.dirty ++ [k], queue := s.queue ++ [k] }

/-- Modelled from the spec (§4.1 `Get`): pop the head of the queue, remove
it from dirty, add it to processing.  With an empty queue `Get` blocks (or
reports shutdown) without touching the state. -/
def wqGet (s : WQState) : WQState :=
  match s.queue with
  | [] => s
  | k :: rest =>
    { s with queue := rest, dirty := s.dirty.erase k, processing := s.processing ++ [k] }

/-- Modelled from the spec (§4.1 `Done`): remove `k` from processing; if it
was re-marked dirty while being worked, re-append it to the queue.  `Done`
is only invoked by the worker that checked `k` out via `Get`
(`processNextWorkItem` defers it, part_000 line 317), which the model
reflects by guarding on membership in processing. -/
def wqDone (s : WQState) (k : NamespacedName) : WQState :=
  if k ∈ s.processing then
    if k ∈ s.dirty then
      { s with processing := s.processing.erase k, queue := s.queue ++ [k] }
    else
      { s with processing := s.processing.erase k }
  else s

/-- One atomic queue transition. -/
def wqStep (s : WQState) : WQEvent → WQState
  | .add k => wqAdd s k
  | .get => wqGet s
  | .done k => wqDone s k
  | .shutDown => { s with shuttingDown := true }

/-- The state after an arbitrary interleaving of events from the empty
queue. -/
def wqRun (events : List WQEvent) : WQState :=
  events.foldl wqStep WQState.initial

/-- The dedup invariant of spec §3: the queue holds no duplicates, and a
key in the queue is dirty and not in processing; processing also holds no
duplicates. -/
def WQInv (s : WQState) : Prop :=
  s.queue.Nodup ∧ s.processing.Nodup ∧
    ∀ k ∈ s.queue, k ∈ s.dirty ∧ k ∉ s.processing

/-- A live object with a controlling owner reference, used as a concrete
test input. -/
def ownedObj : ObjRef :=
  .live ⟨"ns1", "child", [], some ⟨"parent"⟩⟩

/-- A live object with no controlling owner reference. -/
def orphanObj : ObjRef :=
  .live ⟨"ns1", "child", [], none⟩

/-- A live object carrying a name label, used as a concrete test input. -/
def labeledObj : ObjRef :=
  .live ⟨"nsX", "child", [("owner-name", "mom")], none⟩

/-- A plain live object, used as a concrete store item. -/
def sampleObj : ObjRef :=
  .live ⟨"default", "pv-1", [], none⟩

/-- C1: when `Reconcile` fails, `handleErr` requeues the key via
`AddRateLimited` iff the error is not permanent and the queue is not
shutting down; in every other failure case it calls `Forget(key)` and does
not requeue from that path. -/
theorem requeue_iff_transient_and_running (key : NamespacedName) (err : GoError)
    (sd : Bool) :
    (QueueOp.addRateLimited key ∈
        (processNextWorkItem (some key) (fun _ => some err) sd).ops
      ↔ IsPermanentError err = false ∧ sd = false)
    ∧ (QueueOp.forget key ∈
        (processNextWorkItem (some key) (fun _ => some err) sd).ops
      ↔ ¬(IsPermanentError err = false ∧ sd = false)) := by
  cases hp : IsPermanentError err <;> cases sd <;>
    simp [processNextWorkItem, handleErr, hp]

/-- C2: `IsPermanentError e` is true iff `e` was wrapped by
`NewPermanentError` (structurally a `permanentError` value); any un-wrapped
error is classified transient, independent of its message text. -/
theorem isPermanentError_iff_wrapped (e : GoError) :
    (IsPermanentError e = true ↔ ∃ e', e = NewPermanentError e')
    ∧ ∀ msg, IsPermanentError (GoError.plain msg) = false := by
  refine ⟨?_, fun _ => rfl⟩
  cases e with
  | plain msg => simp [IsPermanentError, NewPermanentError]
  | permanent inner => exact ⟨fun _ => ⟨inner, rfl⟩, fun _ => rfl⟩

/-- C7: the key string handed to `Reconcile` is the string form of the
ResourceKey: `"namespace/name"` when the namespace is non-empty, the bare
name when it is empty. -/
theorem reconcile_key_is_string_form (key : NamespacedName)
    (reconcile : String → Option GoError) (sd : Bool) :
    (processNextWorkItem (some key) reconcile sd).reconciledKey
      = some (if key.ns = "" then key.name else key.ns ++ "/" ++ key.name) := by
  have hmain : (processNextWorkItem (some key) reconcile sd).reconciledKey
      = some (safeKey key) := by
    cases h : reconcile (safeKey key) <;> simp [processNextWorkItem, h]
  rw [hmain]
  simp [safeKey, NamespacedName.string]

/-- C8: `GetResyncPeriod` returns the duration attached by
`WithResyncPeriod`, falling back to the fixed 10-hour default when none is
attached, and `GetTrackerLease` is always 3 times `GetResyncPeriod`. -/
theorem resync_period_and_tracker_lease :
    (∀ (ctx : Context) (d : Int), GetResyncPeriod (WithResyncPeriod ctx d) = d)
    ∧ (∀ ctx : Context, ctx.value CtxKey.resyncPeriodKey = none →
        GetResyncPeriod ctx = DefaultResyncPeriod)
    ∧ DefaultResyncPeriod = 10 * nanosPerHour
    ∧ (∀ ctx : Context, GetTrackerLease ctx = 3 * GetResyncPeriod ctx) := by
  refine ⟨fun ctx d => ?_, fun ctx h => ?_, rfl, fun ctx => rfl⟩
  · simp [GetResyncPeriod, WithResyncPeriod, Context.value]
  · simp [GetResyncPeriod, h]

/-- Witness for C8 at concrete contexts. -/
theorem resync_period_and_tracker_lease_witness :
    GetResyncPeriod (WithResyncPeriod Context.todo 42) = 42
    ∧ GetResyncPeriod Context.todo = DefaultResyncPeriod
    ∧ GetTrackerLease Context.todo = 3 * GetResyncPeriod Context.todo :=
  ⟨resync_period_and_tracker_lease.1 Context.todo 42,
   resync_period_and_tracker_lease.2.1 Context.todo rfl,
   resync_period_and_tracker_lease.2.2.2 Context.todo⟩

/-- C6: for an object that resolves through the accessor,
`EnqueueControllerOf` enqueues `{namespace: obj's namespace, name: owner's
name}` exactly when a controlling owner reference is set, and enqueues
nothing otherwise. -/
theorem enqueueControllerOf_owner_key (obj : ObjRef) (o : KObject)
    (h : DeletionHandlingAccessor obj = some o) :
    EnqueueControllerOf obj =
      match o.controllerOwner with
      | some owner => [⟨o.ns, owner.name⟩]
      | none => [] := by
  simp [EnqueueControllerOf, h]

/-- Witness for C6: an owned object enqueues the parent's key, an orphan
enqueues nothing. -/
theorem enqueueControllerOf_owner_key_witness :
    EnqueueControllerOf ownedObj = [⟨"ns1", "parent"⟩]
    ∧ EnqueueControllerOf orphanObj = [] :=
  ⟨enqueueControllerOf_owner_key ownedObj ⟨"ns1", "child", [], some ⟨"parent"⟩⟩ rfl,
   enqueueControllerOf_owner_key orphanObj ⟨"ns1", "child", [], none⟩ rfl⟩

/-- C10: with an empty namespace-label argument and an object carrying the
name label, the handler from `EnqueueLabelOfNamespaceScopedResource`
enqueues `{namespace: the object's own namespace, name: the label value}`
(not a no-op). -/
theorem enqueueLabel_empty_namespace_label (nameLabel : String) (obj : ObjRef)
    (o : KObject) (v : String) (h : DeletionHandlingAccessor obj = some o)
    (hl : o.label nameLabel = some v) :
    EnqueueLabelOfNamespaceScopedResource "" nameLabel obj = [⟨o.ns, v⟩] := by
  simp [EnqueueLabelOfNamespaceScopedResource, h, hl]

/-- Witness for C10 at a concrete labelled object. -/
theorem enqueueLabel_empty_namespace_label_witness :
    EnqueueLabelOfNamespaceScopedResource "" "owner-name" labeledObj
      = [⟨"nsX", "mom"⟩] :=
  enqueueLabel_empty_namespace_label "owner-name" labeledObj
    ⟨"nsX", "child", [("owner-name", "mom")], none⟩ "mom" rfl rfl

/-- The objects `FilteredGlobalResync` hands to `EnqueueAfter` are exactly
the listed items passing the filter, in order. -/
theorem resyncCalls_map_fst (f : ObjRef → Bool) (c : ℚ) (rand : ℕ → ℚ) :
    ∀ (objs : List ObjRef) (i : ℕ),
      (resyncCalls f c rand i objs).map Prod.fst = objs.filter f := by
  intro objs
  induction objs with
  | nil => intro i; simp [resyncCalls]
  | cons a rest ih =>
    intro i
    cases ha : f a <;> simp [resyncCalls, ha, ih, List.filter_cons]

/-- C4: when the queue is not shutting down, `FilteredGlobalResync` makes
exactly one `EnqueueAfter` call per listed item satisfying the filter (so
exactly `N` calls for `GlobalResync` over a store of size `N`); when the
queue is shutting down it makes no calls at all. -/
theorem filteredGlobalResync_enqueue_counts (f : ObjRef → Bool)
    (store : List ObjRef) (rand : ℕ → ℚ) :
    FilteredGlobalResync f store true rand = []
    ∧ (FilteredGlobalResync f store false rand).map Prod.fst = store.filter f
    ∧ (GlobalResync store false rand).length = store.length := by
  refine ⟨rfl, ?_, ?_⟩
  · simpa [FilteredGlobalResync] using
      resyncCalls_map_fst f (store.length : ℚ) rand store 0
  · have h := congrArg List.length
      (resyncCalls_map_fst (fun _ => true) (store.length : ℚ) rand store 0)
    simpa [GlobalResync, FilteredGlobalResync, List.filter_true] using h

/-- The wait loop of `StartInformers` succeeds iff every remaining informer
synced before the stop signal. -/
theorem waitLoop_ok_iff (informers : List Informer) : ∀ i : ℕ,
    (waitLoop i informers = .ok ()
      ↔ ∀ informer ∈ informers, informer.syncsBeforeStop = true) := by
  induction informers with
  | nil => intro i; simp [waitLoop]
  | cons a rest ih =>
    intro i
    cases ha : a.syncsBeforeStop <;> simp [waitLoop, ha, ih (i + 1)]

/-- When some informer fails to sync, the wait loop reports the first
failing one by its index (offset by the loop's starting index). -/
theorem waitLoop_first_fail (informers : List Informer) : ∀ i : ℕ,
    (¬ ∀ informer ∈ informers, informer.syncsBeforeStop = true) →
    waitLoop i informers = .error ("failed to wait for cache at index "
      ++ toString (i + informers.findIdx fun informer => !informer.syncsBeforeStop)
      ++ " to sync") := by
  induction informers with
  | nil => intro i h; simp at h
  | cons a rest ih =>
    intro i h
    cases ha : a.syncsBeforeStop
    · have hidx :
          List.findIdx (fun informer => !informer.syncsBeforeStop) (a :: rest) = 0 := by
        simp [List.findIdx_cons, ha]
      rw [hidx]
      simp [waitLoop, ha]
    · have h' : ¬ ∀ informer ∈ rest, informer.syncsBeforeStop = true := by
        intro hall
        refine h ?_
        intro x hx
        rcases List.mem_cons.mp hx with rfl | hx
        · exact ha
        · exact hall x hx
      have hidx :
          List.findIdx (fun informer => !informer.syncsBeforeStop) (a :: rest)
            = List.findIdx (fun informer => !informer.syncsBeforeStop) rest + 1 := by
        simp [List.findIdx_cons, ha]
      have harith :
          i + (List.findIdx (fun informer => !informer.syncsBeforeStop) rest + 1)
            = i + 1 + List.findIdx (fun informer => !informer.syncsBeforeStop) rest := by
        omega
      rw [hidx, harith]
      simpa [waitLoop, ha] using ih (i + 1) h'

/-- C5: `StartInformers` returns without error iff every supplied informer
reports `HasSynced() == true` before the stop signal; otherwise it returns
the error naming the index of the first informer that failed to sync. -/
theorem startInformers_sync_barrier (informers : List Informer) :
    (StartInformers informers = .ok ()
      ↔ ∀ informer ∈ informers, informer.syncsBeforeStop = true)
    ∧ ((∃ informer ∈ informers, informer.syncsBeforeStop = false) →
        StartInformers informers = .error ("failed to wait for cache at index "
          ++ toString (informers.findIdx fun informer => !informer.syncsBeforeStop)
          ++ " to sync")) := by
  constructor
  · simpa [StartInformers] using waitLoop_ok_iff informers 0
  · intro h
    have h' : ¬ ∀ informer ∈ informers, informer.syncsBeforeStop = true := by
      rcases h with ⟨x, hx, hfx⟩
      intro hall
      rw [hall x hx] at hfx
      cases hfx
    simpa [StartInformers] using waitLoop_first_fail informers 0 h'

/-- Witness for C5: two informers, the second failing to sync. -/
theorem startInformers_sync_barrier_witness :
    (StartInformers [⟨true⟩, ⟨false⟩] = .ok ()
      ↔ ∀ informer ∈ [(⟨true⟩ : Informer), ⟨false⟩], informer.syncsBeforeStop = true)
    ∧ StartInformers [⟨true⟩, ⟨false⟩]
        = .error "failed to wait for cache at index 1 to sync" := by
  have h := startInformers_sync_barrier [⟨true⟩, ⟨false⟩]
  refine ⟨h.1, ?_⟩
  have h2 := h.2 ⟨⟨false⟩, by simp, rfl⟩
  simpa using h2

/-- Bounds on one jittered delay: for a store of size `n ≥ 1` and random
sample `r ∈ [0,1)`, `wait.Jitter(time.Second, n)` lies in
`[1 second, (n+1) seconds)`. -/
theorem jitter_one_second_bounds (n : ℕ) (r : ℚ) (h1 : 1 ≤ n) (h0 : 0 ≤ r)
    (hr : r < 1) :
    nanosPerSecond ≤ Jitter nanosPerSecond (n : ℚ) r
    ∧ Jitter nanosPerSecond (n : ℚ) r < ((n : Int) + 1) * nanosPerSecond := by
  have hn : ¬ ((n : ℚ) ≤ 0) := by
    push_neg
    exact_mod_cast Nat.lt_of_lt_of_le Nat.zero_lt_one h1
  rw [Jitter]
  simp only [if_neg hn]
  have hnq : (0 : ℚ) < (n : ℚ) := lt_of_not_le hn
  constructor
  · have hx : (0 : ℚ) ≤ r * (n : ℚ) * ((nanosPerSecond : Int) : ℚ) := by
      have : ((nanosPerSecond : Int) : ℚ) = 1000000000 := by
        norm_num [nanosPerSecond]
      rw [this]
      positivity
    have hfl : (0 : ℤ) ≤ ⌊r * (n : ℚ) * ((nanosPerSecond : Int) : ℚ)⌋ :=
      Int.le_floor.mpr (by simpa using hx)
    omega
  · have hlt : r * (n : ℚ) * ((nanosPerSecond : Int) : ℚ)
        < (((n : Int) * nanosPerSecond : Int) : ℚ) := by
      have hps : ((nanosPerSecond : Int) : ℚ) = 1000000000 := by
        norm_num [nanosPerSecond]
      push_cast
      rw [hps]
      nlinarith
    have hfl : ⌊r * (n : ℚ) * ((nanosPerSecond : Int) : ℚ)⌋ < (n : Int) * nanosPerSecond :=
      Int.floor_lt.mpr hlt
    linarith

/-- Every delay produced by the resync loop is some jittered second. -/
theorem resyncCalls_delay_is_jitter (f : ObjRef → Bool) (c : ℚ) (rand : ℕ → ℚ) :
    ∀ (objs : List ObjRef) (i : ℕ) (p : ObjRef × Int),
      p ∈ resyncCalls f c rand i objs →
      ∃ j, p.2 = Jitter nanosPerSecond c (rand j) := by
  intro objs
  induction objs with
  | nil => intro i p hp; simp [resyncCalls] at hp
  | cons a rest ih =>
    intro i p hp
    cases ha : f a
    · rw [resyncCalls, if_neg (by simp [ha])] at hp
      exact ih i p hp
    · rw [resyncCalls, if_pos (by simp [ha])] at hp
      rcases List.mem_cons.mp hp with rfl | hp
      · exact ⟨i, rfl⟩
      · exact ih (i + 1) p hp

/-- Counterexample to C3 as stated: over a store of size 1 with random
sample 0, the resync enqueues a delay of exactly one second, which does not
lie in the claimed interval `[0, 1 · baseInterval)`. -/
theorem globalResync_delay_outside_claimed_interval :
    ¬ (∀ p ∈ FilteredGlobalResync (fun _ => true) [sampleObj] false (fun _ => 0),
        0 ≤ p.2 ∧ p.2 < (([sampleObj] : List ObjRef).length : Int) * nanosPerSecond) := by
  intro h
  have hcomp : FilteredGlobalResync (fun _ => true) [sampleObj] false (fun _ => 0)
      = [(sampleObj, nanosPerSecond)] := by
    norm_num [FilteredGlobalResync, resyncCalls, Jitter, nanosPerSecond]
  have hmem : (sampleObj, nanosPerSecond)
      ∈ FilteredGlobalResync (fun _ => true) [sampleObj] false (fun _ => 0) := by
    rw [hcomp]; exact List.mem_singleton_self _
  have hb := (h _ hmem).2
  norm_num [nanosPerSecond] at hb

/-- C3 (amended): every delay passed to `EnqueueAfter` by
`GlobalResync`/`FilteredGlobalResync` over a store of size `N` lies in
`[baseInterval, (N+1) · baseInterval)`, with baseInterval one second. -/
theorem globalResync_delay_bounds (f : ObjRef → Bool) (store : List ObjRef)
    (sd : Bool) (rand : ℕ → ℚ) (hr : ∀ i, 0 ≤ rand i ∧ rand i < 1) :
    ∀ p ∈ FilteredGlobalResync f store sd rand,
      nanosPerSecond ≤ p.2
      ∧ p.2 < ((store.length : Int) + 1) * nanosPerSecond := by
  intro p hp
  cases sd with
  | true => simp [FilteredGlobalResync] at hp
  | false =>
    rw [FilteredGlobalResync, if_neg (by simp)] at hp
    have h1 : 1 ≤ store.length := by
      cases store with
      | nil => simp [resyncCalls] at hp
      | cons a rest => simp
    obtain ⟨j, hj⟩ := resyncCalls_delay_is_jitter f (store.length : ℚ) rand store 0 p hp
    rw [hj]
    exact jitter_one_second_bounds store.length (rand j) h1 (hr j).1 (hr j).2

/-- Witness for C3 (amended): the one-second delay produced over a
one-element store with random sample 0 satisfies the amended bounds. -/
theorem globalResync_delay_bounds_witness :
    nanosPerSecond ≤ ((sampleObj, nanosPerSecond) : ObjRef × Int).2
    ∧ ((sampleObj, nanosPerSecond) : ObjRef × Int).2
        < ((([sampleObj] : List ObjRef).length : Int) + 1) * nanosPerSecond := by
  have hcomp : FilteredGlobalResync (fun _ => true) [sampleObj] false (fun _ => 0)
      = [(sampleObj, nanosPerSecond)] := by
    norm_num [FilteredGlobalResync, resyncCalls, Jitter, nanosPerSecond]
  exact globalResync_delay_bounds (fun _ => true) [sampleObj] false (fun _ => 0)
    (fun i => by norm_num) (sampleObj, nanosPerSecond)
    (by rw [hcomp]; exact List.mem_singleton_self _)

/-- The empty queue satisfies the dedup invariant. -/
theorem wqInv_initial : WQInv WQState.initial := by
  refine ⟨List.nodup_nil, List.nodup_nil, ?_⟩
  intro k hk
  simp [WQState.initial] at hk

/-- Every atomic queue transition preserves the dedup invariant. -/
theorem wqInv_step (s : WQState) (e : WQEvent) (h : WQInv s) : WQInv (wqStep s e) := by
  obtain ⟨hq, hp, hqd⟩ := h
  cases e with
  | shutDown => exact ⟨hq, hp, hqd⟩
  | add k =>
    by_cases hsd : s.shuttingDown
    · simp only [wqStep, wqAdd, if_pos hsd]
      exact ⟨hq, hp, hqd⟩
    by_cases hd : k ∈ s.dirty
    · simp only [wqStep, wqAdd, if_neg hsd, if_pos hd]
      exact ⟨hq, hp, hqd⟩
    by_cases hpr : k ∈ s.processing
    · simp only [wqStep, wqAdd, if_neg hsd, if_neg hd, if_pos hpr]
      refine ⟨hq, hp, fun j hj => ?_⟩
      exact ⟨List.mem_append_left _ (hqd j hj).1, (hqd j hj).2⟩
    · simp only [wqStep, wqAdd, if_neg hsd, if_neg hd, if_neg hpr]
      have hknq : k ∉ s.queue := fun hk => hd (hqd k hk).1
      refine ⟨?_, hp, ?_⟩
      · rw [List.nodup_append]
        exact ⟨hq, List.nodup_singleton _,
          fun a ha hb => hknq ((List.mem_singleton.mp hb) ▸ ha)⟩
      · intro j hj
        rcases List.mem_append.mp hj with hj | hj
        · exact ⟨List.mem_append_left _ (hqd j hj).1, (hqd j hj).2⟩
        · have hjk := List.mem_singleton.mp hj
          subst hjk
          exact ⟨List.mem_append_right _ (List.mem_singleton_self _), hpr⟩
  | get =>
    cases hqc : s.queue with
    | nil =>
      simp only [wqStep, wqGet, hqc]
      exact ⟨hq, hp, hqd⟩
    | cons k rest =>
      simp only [wqStep, wqGet, hqc]
      have hq' : (k :: rest).Nodup := hqc ▸ hq
      have hkrest : k ∉ rest := (List.nodup_cons.mp hq').1
      have hrest : rest.Nodup := (List.nodup_cons.mp hq').2
      have hkq : k ∈ s.queue := by rw [hqc]; exact List.mem_cons_self _ _
      have hkp : k ∉ s.processing := (hqd k hkq).2
      refine ⟨hrest, ?_, ?_⟩
      · rw [List.nodup_append]
        exact ⟨hp, List.nodup_singleton _,
          fun a ha hb => hkp ((List.mem_singleton.mp hb) ▸ ha)⟩
      · intro j hj
        have hjq : j ∈ s.queue := by rw [hqc]; exact List.mem_cons_of_mem _ hj
        have hjk : j ≠ k := fun hjk => hkrest (hjk ▸ hj)
        refine ⟨(List.mem_erase_of_ne hjk).mpr (hqd j hjq).1, fun hmem => ?_⟩
        rcases List.mem_append.mp hmem with hmem | hmem
        · exact (hqd j hjq).2 hmem
        · exact hjk (List.mem_singleton.mp hmem)
  | done k =>
    by_cases hkp : k ∈ s.processing
    · by_cases hkd : k ∈ s.dirty
      · simp only [wqStep, wqDone, if_pos hkp, if_pos hkd]
        have hknq : k ∉ s.queue := fun hk => (hqd k hk).2 hkp
        refine ⟨?_, hp.erase k, ?_⟩
        · rw [List.nodup_append]
          exact ⟨hq, List.nodup_singleton _,
            fun a ha hb => hknq ((List.mem_singleton.mp hb) ▸ ha)⟩
        · intro j hj
          rcases List.mem_append.mp hj with hj | hj
          · exact ⟨(hqd j hj).1, fun hmem => (hqd j hj).2 (List.mem_of_mem_erase hmem)⟩
          · have hjk := List.mem_singleton.mp hj
            subst hjk
            exact ⟨hkd, hp.not_mem_erase⟩
      · simp only [wqStep, wqDone, if_pos hkp, if_neg hkd]
        refine ⟨hq, hp.erase k, fun j hj => ?_⟩
        exact ⟨(hqd j hj).1, fun hmem => (hqd j hj).2 (List.mem_of_mem_erase hmem)⟩
    · simp only [wqStep, wqDone, if_neg hkp]
      exact ⟨hq, hp, hqd⟩

/-- The dedup invariant holds in every state reachable from the empty
queue. -/
theorem wqInv_run (events : List WQEvent) : WQInv (wqRun events) := by
  have hmain : ∀ (s : WQState), WQInv s → WQInv (events.foldl wqStep s) := by
    induction events with
    | nil => intro s hs; exact hs
    | cons e rest ih => intro s hs; exact ih _ (wqInv_step s e hs)
  exact hmain WQState.initial wqInv_initial

/-- C9: under every interleaving of producer `Add`s, worker `Get`/`Done`s
and shutdown, a key has at most one queued-or-checked-out occurrence at any
time — hence at most one `Reconcile` call for it is in flight. -/
theorem at_most_one_occurrence_per_key (events : List WQEvent) (k : NamespacedName) :
    (wqRun events).queue.count k + (wqRun events).processing.count k ≤ 1 := by
  obtain ⟨hq, hp, hqd⟩ := wqInv_run events
  by_cases hk : k ∈ (wqRun events).queue
  · have h1 : (wqRun events).queue.count k ≤ 1 := List.nodup_iff_count_le_one.mp hq k
    have h2 : (wqRun events).processing.count k = 0 :=
      List.count_eq_zero_of_not_mem (hqd k hk).2
    omega
  · have h1 : (wqRun events).queue.count k = 0 := List.count_eq_zero_of_not_mem hk
    have h2 : (wqRun events).processing.count k ≤ 1 :=
      List.nodup_iff_count_le_one.mp hp k
    omega

end KLV
